import Mathlib

/-!
Shallow embedding of `src/src/mxgraph/layout/hierarchical/model/mxGraphHierarchyEdge.js`
(class `mxGraphHierarchyEdge`, an internal edge of the hierarchical layout model).

Modelling conventions:
* JavaScript `null`/`undefined` results are `Option.none`.
* A JS array carrying the per-rank scratch values (`temp`) is modelled as `JSArr`:
  an `Int`-indexed partial map of numeric properties together with the `length`
  property.  This keeps the exact JS semantics of reads and writes at arbitrary
  (also negative or beyond-`length`) indices: a write at any index creates the
  property, and `length` grows only for writes at valid array indices `≥ length`.
* The lazily built caches `nextLayerConnectedCells` / `previousLayerConnectedCells`
  are written only at indices `0 .. temp.length - 1` by the build loop, so they are
  modelled as plain lists read through `jsGet` (out-of-range reads give `none`).
* Cache entries are either the edge itself (`this`, constructor `Conn.self`) or the
  value of the `source` / `target` field at build time (`Conn.ref`).
* `α` is the type of external (wrapped) graph edges, `β` the type of endpoint cell
  references (hierarchy nodes or edges), `γ` the type of identity tokens handed out
  by `mxObjectIdentity.get` (external to this file's source, abstracted as a
  function `identityOf : α → γ`).
-/

/-- JS read `l[i]` on an array holding exactly the elements of the list `l`:
`undefined` (`none`) for a negative index or an index `≥ l.length`. -/
def jsGet {α : Type} (l : List α) (i : Int) : Option α :=
  if 0 ≤ i then l[i.toNat]? else none

/-- A JS array of numeric properties: the map of index properties together with the
`length` property. -/
structure JSArr (α : Type) where
  entries : Int → Option α
  length : Nat

/-- JS read `a[i]`: looks up the numeric property, `undefined` (`none`) if absent. -/
def JSArr.get {α : Type} (a : JSArr α) (i : Int) : Option α :=
  a.entries i

/-- JS write `a[i] = v`: creates/overwrites the numeric property `i`; the `length`
property grows to `i + 1` only when `i` is a valid array index at or beyond the
current length. -/
def JSArr.set {α : Type} (a : JSArr α) (i : Int) (v : α) : JSArr α :=
  { entries := fun j => if j = i then some v else a.entries j
    length := if 0 ≤ i ∧ (a.length : Int) ≤ i then i.toNat + 1 else a.length }

/-- A JS array with no numeric property outside `0 .. length - 1` (every array
produced by ordinary construction and in-range writes satisfies this). -/
def JSArr.WF {α : Type} (a : JSArr α) : Prop :=
  ∀ i : Int, (i < 0 ∨ (a.length : Int) ≤ i) → a.entries i = none

/-- The JS array holding exactly the elements of a list. -/
def JSArr.ofList {α : Type} (l : List α) : JSArr α :=
  { entries := fun i => jsGet l i, length := l.length }

/-- An entry of a connected-cells cache: the push of `this` (the hierarchy edge
itself) or of the value of an endpoint field (`this.source` / `this.target`). -/
inductive Conn (β : Type) where
  | self : Conn β
  | ref : β → Conn β
deriving DecidableEq, Repr

/-- The state of an `mxGraphHierarchyEdge`: the fields declared in
`mxGraphHierarchyEdge.js` (`edges`, `ids`, `source`, `target`, `isReversed`)
together with the fields it uses from its base class `mxGraphAbstractHierarchyCell`
(`minRank`, `maxRank`, `temp`, `nextLayerConnectedCells`,
`previousLayerConnectedCells`). -/
structure HierarchyEdge (α β γ : Type) where
  edges : Option (List α)
  ids : List γ
  source : β
  target : β
  isReversed : Bool
  minRank : Int
  maxRank : Int
  temp : JSArr Int
  nextLayerConnectedCells : Option (List (List (Conn β)))
  previousLayerConnectedCells : Option (List (List (Conn β)))

namespace HierarchyEdge

variable {α β γ : Type}

/-- The `ids` the constructor accumulates:
`this.ids = []; for (i) this.ids.push(mxObjectIdentity.get(edges[i]))`. -/
def constructorIds (identityOf : α → γ) (edges : List α) : List γ :=
  edges.foldl (fun acc e => acc ++ [identityOf e]) []

/-- The constructor `mxGraphHierarchyEdge(edges)`: stores the wrapped external
edges and one identity token per wrapped edge, in order.
Modelled from the spec: the base-class constructor `mxGraphAbstractHierarchyCell`
is not under `src/`; per the spec its fields start out empty/null
(`source`/`target` null — represented by the explicit `nullRef` argument standing
for JS `null` in the abstract endpoint type — rank bounds unset at `-1`, empty
scratch array, caches unbuilt). -/
def construct (identityOf : α → γ) (nullRef : β) (edges : List α) : HierarchyEdge α β γ :=
  { edges := some edges
    ids := constructorIds identityOf edges
    source := nullRef
    target := nullRef
    isReversed := false
    minRank := -1
    maxRank := -1
    temp := JSArr.ofList []
    nextLayerConnectedCells := none
    previousLayerConnectedCells := none }

/-- `invert()`: swaps `source` and `target` and toggles `isReversed`. -/
def invert (e : HierarchyEdge α β γ) : HierarchyEdge α β γ :=
  { e with source := e.target, target := e.source, isReversed := !e.isReversed }

/-- The cache the first call to `getNextLayerConnectedCells` builds: one slot per
`temp` slot; the last slot holds `[this.source]`, every other slot `[this]`. -/
def buildNextCache (e : HierarchyEdge α β γ) : List (List (Conn β)) :=
  (List.range e.temp.length).map fun i =>
    if i = e.temp.length - 1 then [Conn.ref e.source] else [Conn.self]

/-- `getNextLayerConnectedCells(layer)`: builds the cache if it is still null, then
returns `nextLayerConnectedCells[layer - minRank - 1]`; the pair is the returned
value together with the mutated edge state. -/
def getNextLayerConnectedCells (e : HierarchyEdge α β γ) (layer : Int) :
    Option (List (Conn β)) × HierarchyEdge α β γ :=
  let cache :=
    match e.nextLayerConnectedCells with
    | none => buildNextCache e
    | some c => c
  (jsGet cache (layer - e.minRank - 1), { e with nextLayerConnectedCells := some cache })

/-- The cache the first call to `getPreviousLayerConnectedCells` builds: one slot
per `temp` slot; slot `0` holds `[this.target]`, every other slot `[this]`. -/
def buildPreviousCache (e : HierarchyEdge α β γ) : List (List (Conn β)) :=
  (List.range e.temp.length).map fun i =>
    if i = 0 then [Conn.ref e.target] else [Conn.self]

/-- `getPreviousLayerConnectedCells(layer)`: builds the cache if it is still null,
then returns `previousLayerConnectedCells[layer - minRank - 1]`. -/
def getPreviousLayerConnectedCells (e : HierarchyEdge α β γ) (layer : Int) :
    Option (List (Conn β)) × HierarchyEdge α β γ :=
  let cache :=
    match e.previousLayerConnectedCells with
    | none => buildPreviousCache e
    | some c => c
  (jsGet cache (layer - e.minRank - 1), { e with previousLayerConnectedCells := some cache })

/-- `isEdge()`: returns true. -/
def isEdge (_e : HierarchyEdge α β γ) : Bool := true

/-- `getGeneralPurposeVariable(layer)`: reads `temp[layer - minRank - 1]`. -/
def getGeneralPurposeVariable (e : HierarchyEdge α β γ) (layer : Int) : Option Int :=
  e.temp.get (layer - e.minRank - 1)

/-- `setGeneralPurposeVariable(layer, value)`: writes `temp[layer - minRank - 1]`. -/
def setGeneralPurposeVariable (e : HierarchyEdge α β γ) (layer : Int) (value : Int) :
    HierarchyEdge α β γ :=
  { e with temp := e.temp.set (layer - e.minRank - 1) value }

/-- `getCoreCell()`: the first wrapped external edge when `edges` is non-null and
non-empty, else null. -/
def getCoreCell (e : HierarchyEdge α β γ) : Option α :=
  match e.edges with
  | some es => if 0 < es.length then es[0]? else none
  | none => none

end HierarchyEdge

/-! Helper lemmas shared by the claim theorems. -/

theorem constructorIds_eq_map {α γ : Type} (f : α → γ) (es : List α) :
    HierarchyEdge.constructorIds f es = es.map f := by
  suffices h : ∀ acc : List γ,
      es.foldl (fun acc e => acc ++ [f e]) acc = acc ++ es.map f by
    simpa [HierarchyEdge.constructorIds] using h []
  induction es with
  | nil => intro acc; simp
  | cons x xs ih => intro acc; simp [ih]

theorem jsGet_map_range {δ : Type} (n : Nat) (f : Nat → δ) (i : Int)
    (h0 : 0 ≤ i) (h1 : i < (n : Int)) :
    jsGet ((List.range n).map f) i = some (f i.toNat) := by
  have hlt : i.toNat < n := by omega
  simp [jsGet, h0, List.getElem?_map, List.getElem?_range, hlt]

theorem jsGet_none_of_out {δ : Type} (l : List δ) (i : Int)
    (h : i < 0 ∨ (l.length : Int) ≤ i) : jsGet l i = none := by
  rcases h with h | h
  · simp [jsGet, not_le.mpr h]
  · have : l.length ≤ i.toNat := by omega
    simp [jsGet, List.getElem?_eq_none this]

theorem JSArr.wf_ofList {δ : Type} (l : List δ) : (JSArr.ofList l).WF := by
  intro i hi
  exact jsGet_none_of_out l i (by simpa [JSArr.ofList] using hi)

theorem jsGet_buildNextCache {α β γ : Type} (e : HierarchyEdge α β γ) (i : Int)
    (h0 : 0 ≤ i) (h1 : i < (e.temp.length : Int)) :
    jsGet (HierarchyEdge.buildNextCache e) i =
      some (if i = (e.temp.length : Int) - 1 then [Conn.ref e.source]
            else [Conn.self]) := by
  unfold HierarchyEdge.buildNextCache
  rw [jsGet_map_range e.temp.length _ i h0 h1]
  by_cases hc : i = (e.temp.length : Int) - 1
  · have : i.toNat = e.temp.length - 1 := by omega
    simp [hc, this]
  · have : i.toNat ≠ e.temp.length - 1 := by omega
    simp [hc, this]

theorem jsGet_buildPreviousCache {α β γ : Type} (e : HierarchyEdge α β γ) (i : Int)
    (h0 : 0 ≤ i) (h1 : i < (e.temp.length : Int)) :
    jsGet (HierarchyEdge.buildPreviousCache e) i =
      some (if i = 0 then [Conn.ref e.target] else [Conn.self]) := by
  unfold HierarchyEdge.buildPreviousCache
  rw [jsGet_map_range e.temp.length _ i h0 h1]
  by_cases hc : i = 0
  · have : i.toNat = 0 := by omega
    simp [hc, this]
  · have : i.toNat ≠ 0 := by omega
    simp [hc, this]

/-- A concrete edge state used to instantiate the theorems: spans ranks 0..2 with
two interior scratch slots, endpoints the node references 1 and 2, wrapping the
external edges 10 and 11, caches not yet built. -/
def sampleEdge : HierarchyEdge Nat Nat Nat :=
  { edges := some [10, 11]
    ids := [0, 1]
    source := 1
    target := 2
    isReversed := false
    minRank := 0
    maxRank := 2
    temp := JSArr.ofList [5, 7]
    nextLayerConnectedCells := none
    previousLayerConnectedCells := none }

/-- A concrete edge state whose `edges` field is still null. -/
def sampleEdgeNull : HierarchyEdge Nat Nat Nat :=
  { sampleEdge with edges := none }

/-! The claim theorems. -/

/-- Claim C3: `invert()` swaps `source` and `target` and toggles `isReversed`:
after `e.invert()` the source is the old target, the target is the old source,
and `isReversed` is the negation of its old value. -/
theorem claim_C3_invert_swaps {α β γ : Type} (e : HierarchyEdge α β γ) :
    e.invert.source = e.target ∧ e.invert.target = e.source ∧
      e.invert.isReversed = !e.isReversed :=
  ⟨rfl, rfl, rfl⟩

/-- Claim C4: `invert()` is an involution on the `(source, target, isReversed)`
triple: two successive calls restore all three original values. -/
theorem claim_C4_invert_involution {α β γ : Type} (e : HierarchyEdge α β γ) :
    e.invert.invert.source = e.source ∧ e.invert.invert.target = e.target ∧
      e.invert.invert.isReversed = e.isReversed := by
  refine ⟨rfl, rfl, ?_⟩
  simp [HierarchyEdge.invert]

/-- Claim C5: `invert()` changes only `source`, `target` and `isReversed`:
`minRank`, `maxRank`, the `temp` scratch array, the wrapped `edges` list, the
`ids` list and both connected-cells caches are unchanged. -/
theorem claim_C5_invert_frame {α β γ : Type} (e : HierarchyEdge α β γ) :
    e.invert.minRank = e.minRank ∧ e.invert.maxRank = e.maxRank ∧
      e.invert.temp = e.temp ∧ e.invert.edges = e.edges ∧ e.invert.ids = e.ids ∧
      e.invert.nextLayerConnectedCells = e.nextLayerConnectedCells ∧
      e.invert.previousLayerConnectedCells = e.previousLayerConnectedCells :=
  ⟨rfl, rfl, rfl, rfl, rfl, rfl, rfl⟩

/-- Claim C6: `setGeneralPurposeVariable(layer, v)` writes exactly the scratch
slot `temp[layer - minRank - 1]`: a subsequent `getGeneralPurposeVariable(layer)`
returns `v`, and reading any other layer is unaffected. -/
theorem claim_C6_set_get_roundtrip {α β γ : Type} (e : HierarchyEdge α β γ)
    (layer v : Int) :
    (e.setGeneralPurposeVariable layer v).getGeneralPurposeVariable layer
        = some v ∧
      ∀ layer' : Int, layer' ≠ layer →
        (e.setGeneralPurposeVariable layer v).getGeneralPurposeVariable layer'
          = e.getGeneralPurposeVariable layer' := by
  constructor
  · simp [HierarchyEdge.setGeneralPurposeVariable,
      HierarchyEdge.getGeneralPurposeVariable, JSArr.set, JSArr.get]
  · intro layer' h
    simp only [HierarchyEdge.setGeneralPurposeVariable,
      HierarchyEdge.getGeneralPurposeVariable, JSArr.set, JSArr.get]
    rw [if_neg (by omega)]

/-- Witness for C6 at a concrete edge: writing layer 1 and reading it back gives
the written value, and reading layer 2 still sees the original slot. -/
theorem claim_C6_witness :
    (sampleEdge.setGeneralPurposeVariable 1 42).getGeneralPurposeVariable 1
        = some 42 ∧
      (sampleEdge.setGeneralPurposeVariable 1 42).getGeneralPurposeVariable 2
        = sampleEdge.getGeneralPurposeVariable 2 :=
  ⟨(claim_C6_set_get_roundtrip sampleEdge 1 42).1,
    (claim_C6_set_get_roundtrip sampleEdge 1 42).2 2 (by decide)⟩

/-- Claim C8: `getCoreCell()` returns the first wrapped external edge when the
`edges` list is non-null and non-empty, and null otherwise. -/
theorem claim_C8_getCoreCell {α β γ : Type} (e : HierarchyEdge α β γ) :
    (∀ (x : α) (xs : List α), e.edges = some (x :: xs) → e.getCoreCell = some x) ∧
      (e.edges = none ∨ e.edges = some [] → e.getCoreCell = none) := by
  constructor
  · intro x xs h
    simp [HierarchyEdge.getCoreCell, h]
  · rintro (h | h) <;> simp [HierarchyEdge.getCoreCell, h]

/-- Witness for C8 at concrete edges: a two-edge wrapper yields its first wrapped
edge, a null `edges` field yields null. -/
theorem claim_C8_witness :
    sampleEdge.getCoreCell = some 10 ∧ sampleEdgeNull.getCoreCell = none :=
  ⟨(claim_C8_getCoreCell sampleEdge).1 10 [11] rfl,
    (claim_C8_getCoreCell sampleEdgeNull).2 (Or.inl rfl)⟩

/-- Claim C10: the constructor records exactly one identity token per wrapped
external edge, in order: `ids` has the same length as `edges` and its `i`-th
entry is the identity of the `i`-th wrapped edge. -/
theorem claim_C10_constructor_ids {α β γ : Type} (identityOf : α → γ)
    (nullRef : β) (edges : List α) :
    (HierarchyEdge.construct identityOf nullRef edges).ids.length = edges.length ∧
      ∀ i : Nat, (HierarchyEdge.construct identityOf nullRef edges).ids[i]?
        = (edges[i]?).map identityOf := by
  constructor
  · simp [HierarchyEdge.construct, constructorIds_eq_map]
  · intro i
    simp [HierarchyEdge.construct, constructorIds_eq_map]

/-- Claim C1: on an edge whose scratch array has one slot per rank in
`minRank+1 .. minRank+temp.length`, the first call to
`getNextLayerConnectedCells(layer)` with `layer` in that range returns the
one-element array `[source]` at the topmost occupied rank
`layer = minRank + temp.length`, and `[this]` at every other rank in range. -/
theorem claim_C1_getNext_first_call {α β γ : Type} (e : HierarchyEdge α β γ)
    (hspan : (e.temp.length : Int) = e.maxRank - e.minRank)
    (hcache : e.nextLayerConnectedCells = none)
    (layer : Int) (hlo : e.minRank + 1 ≤ layer)
    (hhi : layer ≤ e.minRank + (e.temp.length : Int)) :
    (e.getNextLayerConnectedCells layer).1 =
      if layer = e.minRank + (e.temp.length : Int) then some [Conn.ref e.source]
      else some [Conn.self] := by
  simp only [HierarchyEdge.getNextLayerConnectedCells, hcache]
  rw [jsGet_buildNextCache e (layer - e.minRank - 1) (by omega) (by omega)]
  by_cases hc : layer = e.minRank + (e.temp.length : Int)
  · rw [if_pos hc, if_pos (by omega)]
  · rw [if_neg hc, if_neg (by omega)]

/-- Witness for C1 at a concrete edge with `minRank = 0`, `maxRank = 2` and two
scratch slots: layer 1 yields `[this]`, layer 2 (the topmost) yields `[source]`. -/
theorem claim_C1_witness :
    (sampleEdge.getNextLayerConnectedCells 1).1 = some [Conn.self] ∧
      (sampleEdge.getNextLayerConnectedCells 2).1 = some [Conn.ref 1] := by
  have h1 := claim_C1_getNext_first_call sampleEdge (by decide) rfl 1
    (by decide) (by decide)
  have h2 := claim_C1_getNext_first_call sampleEdge (by decide) rfl 2
    (by decide) (by decide)
  exact ⟨by simpa [sampleEdge] using h1, by simpa [sampleEdge] using h2⟩

/-- Claim C2: symmetric to C1, the first call to
`getPreviousLayerConnectedCells(layer)` with `layer` in
`minRank+1 .. minRank+temp.length` returns the one-element array `[target]` at
the bottom-most rank `layer = minRank + 1`, and `[this]` at every other rank in
range. -/
theorem claim_C2_getPrevious_first_call {α β γ : Type} (e : HierarchyEdge α β γ)
    (hspan : (e.temp.length : Int) = e.maxRank - e.minRank)
    (hcache : e.previousLayerConnectedCells = none)
    (layer : Int) (hlo : e.minRank + 1 ≤ layer)
    (hhi : layer ≤ e.minRank + (e.temp.length : Int)) :
    (e.getPreviousLayerConnectedCells layer).1 =
      if layer = e.minRank + 1 then some [Conn.ref e.target]
      else some [Conn.self] := by
  simp only [HierarchyEdge.getPreviousLayerConnectedCells, hcache]
  rw [jsGet_buildPreviousCache e (layer - e.minRank - 1) (by omega) (by omega)]
  by_cases hc : layer = e.minRank + 1
  · rw [if_pos hc, if_pos (by omega)]
  · rw [if_neg hc, if_neg (by omega)]

/-- Witness for C2 at a concrete edge with `minRank = 0`, `maxRank = 2` and two
scratch slots: layer 1 (the bottom-most) yields `[target]`, layer 2 yields
`[this]`. -/
theorem claim_C2_witness :
    (sampleEdge.getPreviousLayerConnectedCells 1).1 = some [Conn.ref 2] ∧
      (sampleEdge.getPreviousLayerConnectedCells 2).1 = some [Conn.self] := by
  have h1 := claim_C2_getPrevious_first_call sampleEdge (by decide) rfl 1
    (by decide) (by decide)
  have h2 := claim_C2_getPrevious_first_call sampleEdge (by decide) rfl 2
    (by decide) (by decide)
  exact ⟨by simpa [sampleEdge] using h1, by simpa [sampleEdge] using h2⟩

/-- Claim C7: `invert()` does not rebuild or invalidate the connected-cells
cache: after a first call to `getNextLayerConnectedCells` populated the cache,
inverting the edge and calling it again at the topmost occupied rank still
returns the cached pre-inversion `source` object — which, after the inversion,
is the edge's current `target`. -/
theorem claim_C7_stale_cache_after_invert {α β γ : Type} (e : HierarchyEdge α β γ)
    (hcache : e.nextLayerConnectedCells = none)
    (hn : 1 ≤ e.temp.length)
    (layer : Int) (htop : layer = e.minRank + (e.temp.length : Int)) :
    ((e.getNextLayerConnectedCells layer).2.invert.getNextLayerConnectedCells
        layer).1 = some [Conn.ref e.source] ∧
      (e.getNextLayerConnectedCells layer).2.invert.target = e.source := by
  refine ⟨?_, rfl⟩
  simp only [HierarchyEdge.getNextLayerConnectedCells, hcache,
    HierarchyEdge.invert]
  rw [jsGet_buildNextCache e (layer - e.minRank - 1) (by omega) (by omega)]
  rw [if_pos (by omega)]

/-- Witness for C7 at a concrete edge: after caching and inverting, reading the
topmost occupied rank still yields the pre-inversion source node 1, and that
node is now the edge's target. -/
theorem claim_C7_witness :
    ((sampleEdge.getNextLayerConnectedCells 2).2.invert.getNextLayerConnectedCells
        2).1 = some [Conn.ref sampleEdge.source] ∧
      (sampleEdge.getNextLayerConnectedCells 2).2.invert.target =
        sampleEdge.source :=
  claim_C7_stale_cache_after_invert sampleEdge rfl (by decide) 2 (by decide)

/-- Claim C9: for a layer outside `minRank+1 .. minRank+temp.length`, both
`getGeneralPurposeVariable(layer)` (on a well-formed scratch array) and
`getNextLayerConnectedCells(layer)` (reading the built cache) yield `undefined`
(an out-of-bounds array read, modelled as `none`) rather than raising an error;
in particular this covers `layer = minRank`, whose read of index `-1` yields
`undefined` even though `minRank` is an occupied rank of the edge. -/
theorem claim_C9_out_of_range_reads {α β γ : Type} (e : HierarchyEdge α β γ)
    (hwf : e.temp.WF)
    (hcache : e.nextLayerConnectedCells = none ∨
      e.nextLayerConnectedCells = some (HierarchyEdge.buildNextCache e))
    (layer : Int)
    (hout : layer < e.minRank + 1 ∨ e.minRank + (e.temp.length : Int) < layer) :
    e.getGeneralPurposeVariable layer = none ∧
      (e.getNextLayerConnectedCells layer).1 = none := by
  constructor
  · exact hwf (layer - e.minRank - 1) (by omega)
  · have hlen : ((HierarchyEdge.buildNextCache e).length : Int)
        ≤ layer - e.minRank - 1 ∨ layer - e.minRank - 1 < 0 := by
      simp only [HierarchyEdge.buildNextCache, List.length_map, List.length_range]
      omega
    rcases hcache with h | h <;>
      · simp only [HierarchyEdge.getNextLayerConnectedCells, h]
        exact jsGet_none_of_out _ _ (by tauto)

/-- Witness for C9 at a concrete edge with `minRank = 0`: reading layer 0 (the
occupied minimum rank, index `-1`) yields `undefined` from both the scratch
array and the connected-cells cache. -/
theorem claim_C9_witness :
    sampleEdge.getGeneralPurposeVariable 0 = none ∧
      (sampleEdge.getNextLayerConnectedCells 0).1 = none :=
  claim_C9_out_of_range_reads sampleEdge (JSArr.wf_ofList [5, 7])
    (Or.inl rfl) 0 (Or.inl (by decide))
